import Mathlib

/-!
Verification development for the TTS client layer of the zotero-zotts
repository.  The definitions below are a shallow embedding of
`src/modules/tts/openai.ts`: the `TextSectionSplitter` class (text
sectioning), the prefetch/streaming scheduler of `OpenAISynthesizer`
(`startPrefetching` / `fetchSection` / `onAudioComplete`), the session-cache
replay path (`speak` / `playCachedSection`), the error mapping of
`synthesizeToBlob` and the module-level `speak` wrapper, `stop`, and
`skipBackward`.  Strings are modelled as `List Char` where character-level
indexing matters, machine interaction (network, audio element) as explicit
state or event traces.
-/

/-! ## Character classes of the regular expressions used by the splitter

`TextSectionSplitter.findSectionEnd` uses the JavaScript regexes
`/[.!?]["')\x5d]*\s/g`, `/\n\n/g`, `/\n\t/g`, `/\n /g`, `/[.!?]\s/g`,
`/:\s/g`, `/;\s/g`, `/,\s/g`, `/\n/g`, `/\s/g`.  `isJsSpace` is the
JavaScript `\s` class (ECMAScript WhiteSpace plus LineTerminator). -/

def isJsSpace (c : Char) : Bool :=
  let n := c.toNat
  n == 32 || n == 9 || n == 10 || n == 11 || n == 12 || n == 13 ||
  n == 160 || n == 5760 || (8192 ≤ n && n ≤ 8202) || n == 8232 ||
  n == 8233 || n == 8239 || n == 8287 || n == 12288 || n == 65279

def isSentenceEnd (c : Char) : Bool :=
  c == '.' || c == '!' || c == '?'

/-- The class `["')\x5d]` of closing quote/bracket characters that may sit
between a sentence-ending punctuation mark and the following whitespace. -/
def isCloseQuote (c : Char) : Bool :=
  c == Char.ofNat 34 || c == Char.ofNat 39 || c == ')' || c == ']'

/-! ## The sentence-boundary regex `[.!?]["')\x5d]*\s`

The greedy star consumes a maximal run of close-quote characters; since no
close-quote character is whitespace, backtracking can never succeed, so the
regex matches at a position iff the maximal run is followed by whitespace. -/

def closeQuoteRun : List Char → Nat
  | [] => 0
  | c :: cs => if isCloseQuote c then closeQuoteRun cs + 1 else 0

/-- Whether the head of the list exists and is JavaScript whitespace. -/
def headIsSpace : List Char → Bool
  | [] => false
  | w :: _ => isJsSpace w

/-- Length of the match of `[.!?]["')\x5d]*\s` anchored at the head of the
list, or `none`: a sentence-ending character, the maximal run of
close-quote characters, then one whitespace character. -/
def sentenceMatchLen (l : List Char) : Option Nat :=
  match l with
  | [] => none
  | c :: cs =>
    if isSentenceEnd c && headIsSpace (cs.drop (closeQuoteRun cs)) then
      some (closeQuoteRun cs + 2)
    else none

/-- Absolute end positions of the successive non-overlapping matches of the
sentence regex over a window, scanning left to right as `RegExp.exec` with
the `g` flag does.  `o` is the absolute offset of the head of `l`;
`fuel ≥ l.length` makes the recursion structural. -/
def sentenceEndsAux : Nat → Nat → List Char → List Nat
  | 0, _, _ => []
  | _, _, [] => []
  | fuel + 1, o, c :: cs =>
    match sentenceMatchLen (c :: cs) with
    | some m => (o + m) :: sentenceEndsAux fuel (o + m) ((c :: cs).drop m)
    | none => sentenceEndsAux fuel (o + 1) cs

/-- The candidate-selection loop of `findSectionEnd` (lines 95-106): walk the
match ends in order; ends `≤ base` update `candidateBefore` when larger, and
the first end `> base` becomes `candidateAfter` and stops the scan. -/
def scanCandidates : List Nat → Nat → Option Nat → Option Nat × Option Nat
  | [], _, cb => (cb, none)
  | e :: rest, base, cb =>
    if e ≤ base then
      let cb' :=
        match cb with
        | none => some e
        | some b => if b < e then some e else some b
      scanCandidates rest base cb'
    else (cb, some e)

/-! ## Generic one/two-character-class patterns

Every remaining pattern of `findSectionEnd` is one character class,
optionally followed by a second character class. -/

/-- Match length (1 or 2) of the pattern `p1` / `p1 p2` anchored at the head
of the list. -/
def patMatchLen (p1 : Char → Bool) (p2 : Option (Char → Bool)) :
    List Char → Option Nat
  | [] => none
  | c :: cs =>
    if p1 c then
      match p2 with
      | none => some 1
      | some q =>
        match cs with
        | d :: _ => if q d then some 2 else none
        | [] => none
    else none

/-- All `(index, length)` matches of a one/two-class pattern over a list, in
left-to-right non-overlapping `exec` order.  `pos` is the absolute index of
the head; `fuel ≥ l.length`. -/
def patMatchesAux : Nat → Nat → (Char → Bool) → Option (Char → Bool) →
    List Char → List (Nat × Nat)
  | 0, _, _, _, _ => []
  | _, _, _, _, [] => []
  | fuel + 1, pos, p1, p2, c :: cs =>
    match patMatchLen p1 p2 (c :: cs) with
    | some m => (pos, m) :: patMatchesAux fuel (pos + m) p1 p2 ((c :: cs).drop m)
    | none => patMatchesAux fuel (pos + 1) p1 p2 cs

def newlineChar : Char := Char.ofNat 10

def tabChar : Char := Char.ofNat 9

/-- The break patterns of `findSectionEnd` lines 126-136, in priority order:
paragraph break, line break + tab, line break + space, sentence end +
whitespace, colon + whitespace, semicolon + whitespace, comma + whitespace,
single line break, any whitespace. -/
def breakPatterns : List ((Char → Bool) × Option (Char → Bool)) :=
  [ (fun c => c == newlineChar, some (fun c => c == newlineChar)),
    (fun c => c == newlineChar, some (fun c => c == tabChar)),
    (fun c => c == newlineChar, some (fun c => c == ' ')),
    (isSentenceEnd, some isJsSpace),
    (fun c => c == ':', some isJsSpace),
    (fun c => c == ';', some isJsSpace),
    (fun c => c == ',', some isJsSpace),
    (fun c => c == newlineChar, none),
    (isJsSpace, none) ]

/-- Lines 146-150: keep the last match whose index is `> minSearchPos`. -/
def lastBreakMatch (minPos : Nat) (ms : List (Nat × Nat)) : Option (Nat × Nat) :=
  (ms.filter (fun m => decide (minPos < m.1))).getLast?

/-- Lines 138-164: try each break pattern in priority order, returning the
last qualifying match of the first pattern that has one. -/
def findBreak (l : List Char) (minPos : Nat) : Option (Nat × Nat) :=
  breakPatterns.findSome?
    (fun p => lastBreakMatch minPos (patMatchesAux l.length 0 p.1 p.2 l))

/-- The forward-search patterns of lines 170: `[.!?]\s`, `:\s`, `;\s`. -/
def forwardPatterns : List ((Char → Bool) × Option (Char → Bool)) :=
  [ (isSentenceEnd, some isJsSpace),
    (fun c => c == ':', some isJsSpace),
    (fun c => c == ';', some isJsSpace) ]

/-- Lines 172-182: the first match of the first forward pattern that has
one. -/
def findForward (l : List Char) : Option (Nat × Nat) :=
  forwardPatterns.findSome?
    (fun p => (patMatchesAux l.length 0 p.1 p.2 l).head?)

/-! ## `TextSectionSplitter` constants and `findSectionEnd` -/

def MAX_SECTION_SIZE : Nat := 4096

def FIRST_SECTION_SIZE : Nat := 250

def STANDARD_SECTION_SIZE : Nat := 1024

def SENTENCE_ADJUSTMENT_LIMIT : Nat := 50

/-- Lines 84-123: search a symmetric window around `baseSearchEnd` for a
sentence boundary, preferring the first boundary after the target over the
last one before it.  `s` is `startIndex`; the caller passes
`baseSearchEnd` and `maxEnd` as computed in `findSectionEnd`. -/
def sentenceAdjust (ft : List Char) (s baseSearchEnd maxEnd : Nat) : Option Nat :=
  let sStart := max s (baseSearchEnd - SENTENCE_ADJUSTMENT_LIMIT)
  let sEnd := min maxEnd (baseSearchEnd + SENTENCE_ADJUSTMENT_LIMIT)
  if sStart < sEnd then
    let window := (ft.drop sStart).take (sEnd - sStart)
    let p := scanCandidates (sentenceEndsAux window.length sStart window)
        baseSearchEnd none
    match p.2 with
    | some e => some e
    | none => p.1
  else none

/-- Lines 166-190: search a small window past `baseSearchEnd` for a sentence
ending; otherwise force the split at `baseSearchEnd`. -/
def forwardOrForce (ft : List Char) (base maxEnd : Nat) : Nat :=
  if base < min (base + SENTENCE_ADJUSTMENT_LIMIT) maxEnd then
    match findForward
        ((ft.drop base).take (min (base + SENTENCE_ADJUSTMENT_LIMIT) maxEnd - base)) with
    | some im => base + im.1 + im.2
    | none => base
  else base

/-- The body of `findSectionEnd` past the two early returns (lines 78-190),
with `baseSearchEnd = min (s + t) (min ft.length (s + MAX_SECTION_SIZE))`
and `maxEnd = min ft.length (s + MAX_SECTION_SIZE)` written out at each
use site (the source computes each once; both are pure). -/
def sectionSearch (ft : List Char) (t s : Nat) : Nat :=
  match sentenceAdjust ft s (min (s + t) (min ft.length (s + MAX_SECTION_SIZE)))
      (min ft.length (s + MAX_SECTION_SIZE)) with
  | some e => e
  | none =>
    match findBreak
        ((ft.drop s).take (min (s + t) (min ft.length (s + MAX_SECTION_SIZE)) - s))
        (t / 2) with
    | some im => s + im.1 + im.2
    | none =>
      forwardOrForce ft (min (s + t) (min ft.length (s + MAX_SECTION_SIZE)))
        (min ft.length (s + MAX_SECTION_SIZE))

/-- `TextSectionSplitter.findSectionEnd` (lines 61-191) with the target size
`t` already selected: the two early whole-remainder returns (lines 69-76),
then the boundary search. -/
def findSectionEndAt (ft : List Char) (t s : Nat) : Nat :=
  if ft.length - s ≤ t then ft.length
  else if ft.length - s ≤ t + SENTENCE_ADJUSTMENT_LIMIT then ft.length
  else sectionSearch ft t s

/-- `TextSectionSplitter.findSectionEnd` (lines 61-191): the target size is
`FIRST_SECTION_SIZE` for the first section, else `STANDARD_SECTION_SIZE`. -/
def findSectionEnd (ft : List Char) (isFirst : Bool) (s : Nat) : Nat :=
  findSectionEndAt ft (if isFirst then FIRST_SECTION_SIZE else STANDARD_SECTION_SIZE) s

/-! ## Splitter state and iteration -/

structure SplitterState where
  fullText : List Char
  currentIndex : Nat
  isFirstSection : Bool
deriving DecidableEq

/-- `TextSectionSplitter.initialize` (lines 32-36). -/
def initSplitter (text : List Char) : SplitterState :=
  { fullText := text, currentIndex := 0, isFirstSection := true }

/-- `TextSectionSplitter.hasMore` (lines 38-40). -/
def hasMore (st : SplitterState) : Bool :=
  decide (st.currentIndex < st.fullText.length)

/-- `TextSectionSplitter.getNextSection` (lines 42-53): returns the section
together with the updated splitter state. -/
def getNextSection (st : SplitterState) : List Char × SplitterState :=
  if hasMore st then
    let e := findSectionEnd st.fullText st.isFirstSection st.currentIndex
    ((st.fullText.drop st.currentIndex).take (e - st.currentIndex),
      { st with currentIndex := e, isFirstSection := false })
  else ([], st)

/-- Repeated `getNextSection` calls while `hasMore`, fuelled; the fuel
`st.fullText.length` always suffices because the cursor strictly
advances. -/
def sectionsAux : Nat → SplitterState → List (List Char)
  | 0, _ => []
  | fuel + 1, st =>
    if hasMore st then
      (getNextSection st).1 :: sectionsAux fuel (getNextSection st).2
    else []

/-- The full section sequence produced for a text: `initialize(text)`
followed by `getNextSection()` until `hasMore()` is false. -/
def splitSections (text : List Char) : List (List Char) :=
  sectionsAux text.length (initSplitter text)

/-! ## Bounds on the scanners -/

theorem closeQuoteRun_le (l : List Char) : closeQuoteRun l ≤ l.length := by
  induction l with
  | nil => simp [closeQuoteRun]
  | cons c cs ih =>
    simp only [closeQuoteRun, List.length_cons]
    split
    · omega
    · omega

theorem sentenceMatchLen_bounds (l : List Char) (m : Nat)
    (h : sentenceMatchLen l = some m) : 2 ≤ m ∧ m ≤ l.length := by
  match l with
  | [] => simp [sentenceMatchLen] at h
  | c :: cs =>
    simp only [sentenceMatchLen] at h
    split at h
    · rename_i hcond
      injection h with h2
      subst h2
      have hne : cs.drop (closeQuoteRun cs) ≠ [] := by
        cases hdd : cs.drop (closeQuoteRun cs) with
        | nil => rw [hdd] at hcond; simp [headIsSpace] at hcond
        | cons a b => simp
      have hk : closeQuoteRun cs < cs.length := by
        by_contra hc
        exact hne (List.drop_eq_nil_of_le (by omega))
      have hlc : (c :: cs).length = cs.length + 1 := List.length_cons c cs
      constructor
      · omega
      · omega
    · simp at h

theorem sentenceEndsAux_mem :
    ∀ (fuel o : Nat) (l : List Char) (e : Nat),
      e ∈ sentenceEndsAux fuel o l → o < e ∧ e ≤ o + l.length := by
  intro fuel
  induction fuel with
  | zero => intro o l e h; simp [sentenceEndsAux] at h
  | succ n ih =>
    intro o l e h
    match l with
    | [] => simp [sentenceEndsAux] at h
    | c :: cs =>
      rw [sentenceEndsAux] at h
      cases hm : sentenceMatchLen (c :: cs) with
      | some m =>
        rw [hm] at h
        obtain ⟨hm2, hmle⟩ := sentenceMatchLen_bounds _ _ hm
        rcases List.mem_cons.mp h with h1 | h2
        · subst h1
          constructor
          · omega
          · simp [List.length_cons] at hmle ⊢; omega
        · obtain ⟨ha, hb⟩ := ih (o + m) _ _ h2
          have hld : ((c :: cs).drop m).length = (c :: cs).length - m :=
            List.length_drop _ _
          constructor
          · omega
          · rw [hld] at hb; omega
      | none =>
        rw [hm] at h
        obtain ⟨ha, hb⟩ := ih (o + 1) cs e h
        simp only [List.length_cons]
        omega

theorem scanCandidates_fst :
    ∀ (l : List Nat) (base : Nat) (cb : Option Nat) (e : Nat),
      (scanCandidates l base cb).1 = some e → cb = some e ∨ e ∈ l := by
  intro l
  induction l with
  | nil => intro base cb e h; simp [scanCandidates] at h; left; rw [h]
  | cons a rest ih =>
    intro base cb e h
    simp only [scanCandidates] at h
    split at h
    · rcases ih base _ e h with h1 | h1
      · cases cb with
        | none =>
          simp at h1
          right; exact List.mem_cons.mpr (Or.inl h1.symm)
        | some b =>
          simp only at h1
          split at h1
          · right; simp at h1; exact List.mem_cons.mpr (Or.inl h1.symm)
          · left; simpa using h1
      · right; exact List.mem_cons.mpr (Or.inr h1)
    · simp only at h; left; exact h

theorem scanCandidates_snd :
    ∀ (l : List Nat) (base : Nat) (cb : Option Nat) (e : Nat),
      (scanCandidates l base cb).2 = some e → e ∈ l := by
  intro l
  induction l with
  | nil => intro base cb e h; simp [scanCandidates] at h
  | cons a rest ih =>
    intro base cb e h
    simp only [scanCandidates] at h
    split at h
    · exact List.mem_cons.mpr (Or.inr (ih base _ e h))
    · simp only [Option.some.injEq] at h; exact List.mem_cons.mpr (Or.inl h.symm)

theorem sentenceAdjust_bounds (ft : List Char) (s b m e : Nat)
    (h : sentenceAdjust ft s b m = some e) : s < e ∧ e ≤ m := by
  simp only [sentenceAdjust] at h
  split at h
  · rename_i hlt
    have hmem : e ∈ sentenceEndsAux
        ((ft.drop (max s (b - SENTENCE_ADJUSTMENT_LIMIT))).take
          (min m (b + SENTENCE_ADJUSTMENT_LIMIT) - max s (b - SENTENCE_ADJUSTMENT_LIMIT))).length
        (max s (b - SENTENCE_ADJUSTMENT_LIMIT))
        ((ft.drop (max s (b - SENTENCE_ADJUSTMENT_LIMIT))).take
          (min m (b + SENTENCE_ADJUSTMENT_LIMIT) - max s (b - SENTENCE_ADJUSTMENT_LIMIT))) := by
      split at h
      · rename_i e2 heq
        simp only [Option.some.injEq] at h
        subst h
        exact scanCandidates_snd _ _ _ _ heq
      · rcases scanCandidates_fst _ _ _ _ h with h1 | h1
        · simp at h1
        · exact h1
    obtain ⟨h1, h2⟩ := sentenceEndsAux_mem _ _ _ _ hmem
    rw [List.length_take, List.length_drop] at h2
    constructor
    · omega
    · omega
  · simp at h

theorem patMatchLen_bounds (p1 : Char → Bool) (p2 : Option (Char → Bool))
    (l : List Char) (m : Nat) (h : patMatchLen p1 p2 l = some m) :
    1 ≤ m ∧ m ≤ l.length := by
  match l with
  | [] => simp [patMatchLen] at h
  | c :: cs =>
    simp only [patMatchLen] at h
    split at h
    · cases p2 with
      | none =>
        injection h with h2
        subst h2
        simp
      | some q =>
        cases cs with
        | nil => simp at h
        | cons d ds =>
          simp only at h
          split at h
          · injection h with h2
            subst h2
            constructor
            · omega
            · have h3 : (c :: d :: ds).length = ds.length + 2 := by simp
              omega
          · simp at h
    · simp at h

theorem patMatchesAux_mem :
    ∀ (fuel pos : Nat) (p1 : Char → Bool) (p2 : Option (Char → Bool))
      (l : List Char) (i m : Nat),
      (i, m) ∈ patMatchesAux fuel pos p1 p2 l →
      pos ≤ i ∧ 1 ≤ m ∧ i + m ≤ pos + l.length := by
  intro fuel
  induction fuel with
  | zero => intro pos p1 p2 l i m h; simp [patMatchesAux] at h
  | succ n ih =>
    intro pos p1 p2 l i m h
    match l with
    | [] => simp [patMatchesAux] at h
    | c :: cs =>
      rw [patMatchesAux] at h
      cases hm : patMatchLen p1 p2 (c :: cs) with
      | some k =>
        rw [hm] at h
        obtain ⟨hk1, hk2⟩ := patMatchLen_bounds _ _ _ _ hm
        rcases List.mem_cons.mp h with h1 | h2
        · injection h1 with hi hmm
          subst hi; subst hmm
          omega
        · obtain ⟨ha, hb, hc⟩ := ih (pos + k) p1 p2 _ i m h2
          have hld : ((c :: cs).drop k).length = (c :: cs).length - k :=
            List.length_drop _ _
          constructor
          · omega
          constructor
          · omega
          · rw [hld] at hc; omega
      | none =>
        rw [hm] at h
        obtain ⟨ha, hb, hc⟩ := ih (pos + 1) p1 p2 cs i m h
        simp only [List.length_cons]
        omega

theorem mem_of_getLastQ {α : Type} (l : List α) (a : α)
    (h : l.getLast? = some a) : a ∈ l := by
  induction l with
  | nil => simp at h
  | cons x xs ih =>
    cases xs with
    | nil => simp at h; simp [h]
    | cons y ys =>
      rw [List.getLast?_cons_cons] at h
      exact List.mem_cons.mpr (Or.inr (ih h))

theorem mem_of_headQ {α : Type} (l : List α) (a : α)
    (h : l.head? = some a) : a ∈ l := by
  cases l with
  | nil => simp at h
  | cons x xs => simp at h; simp [h]

theorem exists_of_findSomeQ {α β : Type} (f : α → Option β) :
    ∀ (l : List α) (b : β), l.findSome? f = some b → ∃ a ∈ l, f a = some b := by
  intro l
  induction l with
  | nil => intro b h; simp [List.findSome?] at h
  | cons x xs ih =>
    intro b h
    rw [List.findSome?] at h
    cases hf : f x with
    | some c =>
      rw [hf] at h
      injection h with h2
      exact ⟨x, List.mem_cons_self x xs, by rw [hf, h2]⟩
    | none =>
      rw [hf] at h
      obtain ⟨a, ha, hfa⟩ := ih b h
      exact ⟨a, List.mem_cons.mpr (Or.inr ha), hfa⟩

theorem findBreak_bounds (l : List Char) (minPos i m : Nat)
    (h : findBreak l minPos = some (i, m)) :
    minPos < i ∧ 1 ≤ m ∧ i + m ≤ l.length := by
  obtain ⟨p, _, hp⟩ := exists_of_findSomeQ _ _ _ h
  unfold lastBreakMatch at hp
  have hmem := mem_of_getLastQ _ _ hp
  have hfilter := List.mem_filter.mp hmem
  obtain ⟨hmem2, hdec⟩ := hfilter
  have hq := of_decide_eq_true hdec
  obtain ⟨ha, hb, hc⟩ := patMatchesAux_mem _ _ _ _ _ _ _ hmem2
  exact ⟨hq, hb, by omega⟩

theorem findForward_bounds (l : List Char) (i m : Nat)
    (h : findForward l = some (i, m)) : 1 ≤ m ∧ i + m ≤ l.length := by
  obtain ⟨p, _, hp⟩ := exists_of_findSomeQ _ _ _ h
  have hmem := mem_of_headQ _ _ hp
  obtain ⟨ha, hb, hc⟩ := patMatchesAux_mem _ _ _ _ _ _ _ hmem
  exact ⟨hb, by omega⟩

theorem forwardOrForce_bounds (ft : List Char) (base maxE : Nat)
    (h : base ≤ maxE) :
    base ≤ forwardOrForce ft base maxE ∧ forwardOrForce ft base maxE ≤ maxE := by
  unfold forwardOrForce
  split
  · split
    · rename_i im hf
      obtain ⟨h1, h2⟩ := findForward_bounds _ _ _ hf
      rw [List.length_take, List.length_drop] at h2
      omega
    · omega
  · omega

theorem sectionSearch_bounds (ft : List Char) (t s : Nat)
    (h : s < ft.length) (ht : 0 < t) :
    s < sectionSearch ft t s ∧
      sectionSearch ft t s ≤ min ft.length (s + MAX_SECTION_SIZE) := by
  have hM : 0 < MAX_SECTION_SIZE := by simp [MAX_SECTION_SIZE]
  unfold sectionSearch
  split
  · rename_i e hsa
    obtain ⟨h1, h2⟩ := sentenceAdjust_bounds _ _ _ _ _ hsa
    omega
  · split
    · rename_i im hfb
      obtain ⟨h1, h2, h3⟩ := findBreak_bounds _ _ _ _ hfb
      rw [List.length_take, List.length_drop] at h3
      omega
    · obtain ⟨h1, h2⟩ := forwardOrForce_bounds ft
        (min (s + t) (min ft.length (s + MAX_SECTION_SIZE)))
        (min ft.length (s + MAX_SECTION_SIZE)) (by omega)
      omega

theorem findSectionEndAt_bounds (ft : List Char) (t s : Nat)
    (h : s < ft.length) (ht1 : 0 < t) (ht2 : t ≤ 1024) :
    s < findSectionEndAt ft t s ∧ findSectionEndAt ft t s ≤ ft.length ∧
      findSectionEndAt ft t s ≤ s + MAX_SECTION_SIZE := by
  have hM : MAX_SECTION_SIZE = 4096 := rfl
  have hA : SENTENCE_ADJUSTMENT_LIMIT = 50 := rfl
  unfold findSectionEndAt
  split
  · omega
  · split
    · omega
    · obtain ⟨h1, h2⟩ := sectionSearch_bounds ft t s h ht1
      omega

theorem findSectionEnd_bounds (ft : List Char) (isFirst : Bool) (s : Nat)
    (h : s < ft.length) :
    s < findSectionEnd ft isFirst s ∧ findSectionEnd ft isFirst s ≤ ft.length ∧
      findSectionEnd ft isFirst s ≤ s + MAX_SECTION_SIZE := by
  unfold findSectionEnd
  cases isFirst with
  | true =>
    exact findSectionEndAt_bounds ft FIRST_SECTION_SIZE s h (by decide) (by decide)
  | false =>
    exact findSectionEndAt_bounds ft STANDARD_SECTION_SIZE s h (by decide) (by decide)

/-! ## Splitter iteration lemmas -/

theorem hasMore_lt (st : SplitterState) (h : hasMore st = true) :
    st.currentIndex < st.fullText.length := by
  simpa [hasMore] using h

theorem getNextSection_eq_of_hasMore (st : SplitterState) (h : hasMore st = true) :
    getNextSection st =
      ((st.fullText.drop st.currentIndex).take
          (findSectionEnd st.fullText st.isFirstSection st.currentIndex -
            st.currentIndex),
        { st with
            currentIndex := findSectionEnd st.fullText st.isFirstSection st.currentIndex,
            isFirstSection := false }) := by
  unfold getNextSection
  rw [if_pos h]

theorem sectionsAux_flatten :
    ∀ (fuel : Nat) (st : SplitterState),
      st.fullText.length - st.currentIndex ≤ fuel →
      (sectionsAux fuel st).flatten = st.fullText.drop st.currentIndex := by
  intro fuel
  induction fuel with
  | zero =>
    intro st hf
    rw [sectionsAux, List.flatten_nil, List.drop_eq_nil_of_le (by omega)]
  | succ n ih =>
    intro st hf
    rw [sectionsAux]
    by_cases hm : hasMore st
    · have hlt := hasMore_lt st hm
      obtain ⟨hb1, hb2, hb3⟩ :=
        findSectionEnd_bounds st.fullText st.isFirstSection st.currentIndex hlt
      rw [if_pos hm, getNextSection_eq_of_hasMore st hm]
      dsimp only
      rw [List.flatten_cons]
      rw [ih { st with
          currentIndex := findSectionEnd st.fullText st.isFirstSection st.currentIndex,
          isFirstSection := false } (by dsimp only; omega)]
      dsimp only
      have hdd : st.fullText.drop
          (findSectionEnd st.fullText st.isFirstSection st.currentIndex) =
          (st.fullText.drop st.currentIndex).drop
            (findSectionEnd st.fullText st.isFirstSection st.currentIndex -
              st.currentIndex) := by
        rw [List.drop_drop]
        congr 1
        omega
      rw [hdd, List.take_append_drop]
    · rw [if_neg hm, List.flatten_nil]
      have hge : st.fullText.length ≤ st.currentIndex := by
        by_contra hc
        exact hm (by simp [hasMore]; omega)
      exact (List.drop_eq_nil_of_le hge).symm

/-- C1: for every input text, the sequence of sections produced by
`initialize(text)` followed by repeated `getNextSection()` calls until
`hasMore()` is false, concatenated in the order returned, equals the
original text exactly (lossless, order-preserving split). -/
theorem claim_C1_sectioning_lossless (text : List Char) :
    (splitSections text).flatten = text := by
  unfold splitSections
  rw [sectionsAux_flatten _ _ (by simp [initSplitter])]
  simp [initSplitter]

/-- C2: every section returned by `getNextSection()` — from any splitter
state, hence on every path of `findSectionEnd` including the
sentence-boundary adjustment, forward search, and forced split — has length
at most `MAX_SECTION_SIZE` (4096 characters). -/
theorem claim_C2_section_le_max (st : SplitterState) :
    (getNextSection st).1.length ≤ MAX_SECTION_SIZE := by
  by_cases hm : hasMore st
  · have hlt := hasMore_lt st hm
    obtain ⟨h1, h2, h3⟩ :=
      findSectionEnd_bounds st.fullText st.isFirstSection st.currentIndex hlt
    rw [getNextSection_eq_of_hasMore st hm]
    dsimp only
    rw [List.length_take, List.length_drop]
    omega
  · unfold getNextSection
    rw [if_neg hm]
    simp [MAX_SECTION_SIZE]

/-- C10: whenever `hasMore()` is true, `getNextSection()` returns a
non-empty section and strictly advances the cursor
(`findSectionEnd(start) > start`), so repeated calls on any text reach
`hasMore() = false` after finitely many sections. -/
theorem claim_C10_progress (st : SplitterState) (h : hasMore st = true) :
    (getNextSection st).1 ≠ [] ∧
      st.currentIndex < (getNextSection st).2.currentIndex := by
  have hlt := hasMore_lt st h
  obtain ⟨h1, h2, h3⟩ :=
    findSectionEnd_bounds st.fullText st.isFirstSection st.currentIndex hlt
  rw [getNextSection_eq_of_hasMore st h]
  dsimp only
  constructor
  · intro hc
    have hlen := congrArg List.length hc
    rw [List.length_take, List.length_drop, List.length_nil] at hlen
    omega
  · omega

/-- Witness for C10: on a one-character text, `hasMore` holds, the section
returned is non-empty and the cursor advances. -/
theorem claim_C10_progress_witness :
    hasMore (initSplitter [Char.ofNat 97]) = true ∧
      ((getNextSection (initSplitter [Char.ofNat 97])).1 ≠ [] ∧
        (initSplitter [Char.ofNat 97]).currentIndex <
          (getNextSection (initSplitter [Char.ofNat 97])).2.currentIndex) :=
  ⟨by decide, claim_C10_progress (initSplitter [Char.ofNat 97]) (by decide)⟩

/-! ## Prefetch/streaming scheduler of `OpenAISynthesizer`

State of one live-streaming session, abstracting the text as its number of
sections `total` (justified by the splitter theorems above: each
`getNextSection` call consumes exactly one of finitely many sections, and
`hasMore` holds iff sections remain, i.e. iff `nextSectionIndex < total`).
`audioQueue` holds the indices of prefetched blobs in queue order
(`audioQueue.push` / `shift` in the source), `inProgress` the set of
in-flight prefetch indices, `played` the indices handed to the audio player
in order.  `playedQ` (those of `played` that were dequeued from
`audioQueue`) and `enqueued` (the order in which completed prefetches were
pushed onto the queue) are history variables used only in statements.
The synchronous fetch of a section (`speakSection`) is modelled as playing
it at once, since it never passes through the prefetch queue. -/

structure StreamState where
  total : Nat
  nextSectionIndex : Nat
  audioQueue : List Nat
  inProgress : List Nat
  playingIdx : Option Nat
  played : List Nat
  playedQ : List Nat
  enqueued : List Nat
  stopped : Bool
deriving DecidableEq

def MAX_PREFETCH : Nat := 2

/-- The loop of `startPrefetching` (lines 647-662): run `n` times while the
splitter has more text; each iteration assigns the next section index and,
when that index is not already in flight, marks it in flight (consuming one
section from the splitter). -/
def prefetchLoop : Nat → StreamState → StreamState
  | 0, s => s
  | n + 1, s =>
    if s.nextSectionIndex < s.total then
      if s.nextSectionIndex ∈ s.inProgress then
        prefetchLoop n { s with nextSectionIndex := s.nextSectionIndex + 1 }
      else
        prefetchLoop n { s with
          nextSectionIndex := s.nextSectionIndex + 1,
          inProgress := s.inProgress ++ [s.nextSectionIndex] }
    else s

/-- `OpenAISynthesizer.startPrefetching` (lines 643-663):
`sectionsToFetch = min(MAX_PREFETCH - queue.length - inProgress.size,
MAX_PREFETCH)` (truncated subtraction models the JavaScript loop not running
on a negative count). -/
def startPrefetching (s : StreamState) : StreamState :=
  prefetchLoop
    (min (MAX_PREFETCH - s.audioQueue.length - s.inProgress.length) MAX_PREFETCH) s

/-- The streaming path of `speak` (lines 420-448) for a text of `total ≥ 1`
sections: reset all tracking, take the first section as index 0, start
prefetching when more text remains, and play section 0 (its synchronous
synthesis never passes through the queue). -/
def speakInit (total : Nat) : StreamState :=
  let s0 : StreamState := {
    total := total, nextSectionIndex := 1, audioQueue := [], inProgress := [],
    playingIdx := some 0, played := [0], playedQ := [], enqueued := [],
    stopped := false }
  if 1 < total then startPrefetching s0 else s0

/-- Asynchronous events of a live-streaming session: a prefetch request for
section `i` resolving (`fetchSection` lines 668-698 past the `await`),
a prefetch request failing (the `catch` in `startPrefetching` and
`fetchSection`), the audio element finishing a section
(`onAudioComplete` lines 580-638 with cache playback inactive), and `stop`
(lines 497-513). -/
inductive StreamEvent where
  | completeOk (i : Nat)
  | completeFail (i : Nat)
  | audioComplete
  | stop
deriving DecidableEq

def streamStep (s : StreamState) : StreamEvent → StreamState
  | StreamEvent.completeOk i =>
    if i ∈ s.inProgress then
      if s.stopped then { s with inProgress := s.inProgress.erase i }
      else { s with
        inProgress := s.inProgress.erase i,
        audioQueue := s.audioQueue ++ [i],
        enqueued := s.enqueued ++ [i] }
    else s
  | StreamEvent.completeFail i => { s with inProgress := s.inProgress.erase i }
  | StreamEvent.audioComplete =>
    match s.playingIdx with
    | none => s
    | some _ =>
      if s.stopped then { s with playingIdx := none }
      else
        match s.audioQueue with
        | q :: rest =>
          let s1 := { s with audioQueue := rest, playingIdx := some q,
                             played := s.played ++ [q], playedQ := s.playedQ ++ [q] }
          if s1.nextSectionIndex < s1.total then startPrefetching s1 else s1
        | [] =>
          if s.nextSectionIndex < s.total then
            { s with nextSectionIndex := s.nextSectionIndex + 1,
                     playingIdx := some s.nextSectionIndex,
                     played := s.played ++ [s.nextSectionIndex] }
          else { s with playingIdx := none }
  | StreamEvent.stop =>
    { s with stopped := true, audioQueue := [], inProgress := [],
             playingIdx := none }

/-- A live-streaming session: `speak` on a `total`-section text followed by
an arbitrary interleaving of completion/playback/stop events. -/
def runStream (total : Nat) (evs : List StreamEvent) : StreamState :=
  evs.foldl streamStep (speakInit total)

/-! ## Scheduler lemmas -/

theorem prefetchLoop_spec :
    ∀ (n : Nat) (s : StreamState),
      (prefetchLoop n s).audioQueue = s.audioQueue ∧
      (prefetchLoop n s).inProgress.length ≤ s.inProgress.length + n ∧
      (prefetchLoop n s).playedQ = s.playedQ ∧
      (prefetchLoop n s).enqueued = s.enqueued ∧
      (prefetchLoop n s).stopped = s.stopped ∧
      (prefetchLoop n s).playingIdx = s.playingIdx ∧
      (prefetchLoop n s).played = s.played := by
  intro n
  induction n with
  | zero => intro s; simp [prefetchLoop]
  | succ k ih =>
    intro s
    rw [prefetchLoop]
    split
    · split
      · obtain ⟨h1, h2, h3, h4, h5, h6, h7⟩ :=
          ih { s with nextSectionIndex := s.nextSectionIndex + 1 }
        refine ⟨h1, ?_, h3, h4, h5, h6, h7⟩
        simp only at h2
        omega
      · obtain ⟨h1, h2, h3, h4, h5, h6, h7⟩ :=
          ih { s with nextSectionIndex := s.nextSectionIndex + 1,
                      inProgress := s.inProgress ++ [s.nextSectionIndex] }
        refine ⟨h1, ?_, h3, h4, h5, h6, h7⟩
        simp only [List.length_append, List.length_cons, List.length_nil] at h2
        omega
    · simp

/-- The bound maintained by the scheduler: queued prefetched blobs plus
in-flight prefetch requests never exceed `MAX_PREFETCH`. -/
def prefetchInvariant (s : StreamState) : Prop :=
  s.audioQueue.length + s.inProgress.length ≤ MAX_PREFETCH

theorem startPrefetching_inv (s : StreamState) (h : prefetchInvariant s) :
    prefetchInvariant (startPrefetching s) := by
  unfold startPrefetching
  obtain ⟨h1, h2, _, _, _, _, _⟩ := prefetchLoop_spec
    (min (MAX_PREFETCH - s.audioQueue.length - s.inProgress.length) MAX_PREFETCH) s
  unfold prefetchInvariant at *
  rw [h1]
  omega

theorem speakInit_inv (total : Nat) : prefetchInvariant (speakInit total) := by
  unfold speakInit
  split
  · exact startPrefetching_inv _ (by simp [prefetchInvariant, MAX_PREFETCH])
  · simp [prefetchInvariant, MAX_PREFETCH]

theorem streamStep_inv (s : StreamState) (e : StreamEvent)
    (h : prefetchInvariant s) : prefetchInvariant (streamStep s e) := by
  unfold prefetchInvariant at *
  cases e with
  | completeOk i =>
    rw [streamStep]
    split
    · rename_i hm
      have he : (s.inProgress.erase i).length = s.inProgress.length - 1 :=
        List.length_erase_of_mem hm
      have hpos : 1 ≤ s.inProgress.length := List.length_pos.mpr (by
        intro hc; rw [hc] at hm; simp at hm)
      split
      · simp only [he]; omega
      · simp only [he, List.length_append, List.length_cons, List.length_nil]
        omega
    · exact h
  | completeFail i =>
    rw [streamStep]
    have he := List.length_erase_le i s.inProgress
    simp only
    omega
  | audioComplete =>
    rw [streamStep]
    cases hp : s.playingIdx with
    | none => exact h
    | some j =>
      simp only
      split
      · simpa using h
      · cases hq : s.audioQueue with
        | cons q rest =>
          simp only
          rw [hq] at h
          simp only [List.length_cons] at h
          split
          · exact startPrefetching_inv _ (by
              unfold prefetchInvariant
              simp only
              omega)
          · simp only
            omega
        | nil =>
          simp only
          rw [hq] at h
          simp only [List.length_nil] at h
          split
          · simpa using h
          · simpa using h
  | stop =>
    rw [streamStep]
    simp [MAX_PREFETCH]

/-- C7: at every point of a live-streaming session — after `speak` and any
sequence of prefetch completions, failures, playback completions and stops —
the number of queued prefetched blobs plus in-flight prefetch requests never
exceeds `MAX_PREFETCH` (2): `startPrefetching` only tops the pair up to that
bound. -/
theorem claim_C7_prefetch_bound (total : Nat) (evs : List StreamEvent) :
    (runStream total evs).audioQueue.length +
      (runStream total evs).inProgress.length ≤ MAX_PREFETCH := by
  have hgen : ∀ (l : List StreamEvent) (s : StreamState), prefetchInvariant s →
      prefetchInvariant (l.foldl streamStep s) := by
    intro l
    induction l with
    | nil => intro s hs; exact hs
    | cons e rest ih =>
      intro s hs
      exact ih _ (streamStep_inv s e hs)
  exact hgen evs (speakInit total) (speakInit_inv total)

/-! ## C3: playback order under out-of-order prefetch completion -/

/-- C3 counterexample: on a three-section text, `speak` prefetches sections
1 and 2 concurrently; if the prefetch of section 2 completes before that of
section 1, `fetchSection` pushes section 2 first and `onAudioComplete`
dequeues it first, so after section 0 the player receives section 2 — the
played order is `[0, 2]`, not consecutive ordinals.  The claimed ordering
guarantee fails for this completion order. -/
theorem claim_C3_counterexample :
    ¬ List.Chain' (fun a b => b = a + 1)
      ((runStream 3 [StreamEvent.completeOk 2, StreamEvent.completeOk 1,
        StreamEvent.audioComplete]).played) := by
  have h : (runStream 3 [StreamEvent.completeOk 2, StreamEvent.completeOk 1,
      StreamEvent.audioComplete]).played = [0, 2] := by decide
  rw [h]
  intro hc
  rw [List.chain'_cons] at hc
  exact absurd hc.1 (by decide)

/-- The property the scheduler does maintain: queue-played sections followed
by the still-queued sections reproduce the enqueue log, and the session is
not stopped. -/
def fifoInvariant (s : StreamState) : Prop :=
  s.playedQ ++ s.audioQueue = s.enqueued ∧ s.stopped = false

theorem startPrefetching_fifo (s : StreamState) (h : fifoInvariant s) :
    fifoInvariant (startPrefetching s) := by
  unfold startPrefetching
  obtain ⟨h1, _, h3, h4, h5, _, _⟩ := prefetchLoop_spec
    (min (MAX_PREFETCH - s.audioQueue.length - s.inProgress.length) MAX_PREFETCH) s
  unfold fifoInvariant at *
  rw [h1, h3, h4, h5]
  exact h

theorem streamStep_fifo (s : StreamState) (e : StreamEvent)
    (he : e ≠ StreamEvent.stop) (h : fifoInvariant s) :
    fifoInvariant (streamStep s e) := by
  obtain ⟨h1, h2⟩ := h
  cases e with
  | completeOk i =>
    rw [streamStep]
    split
    · rw [h2]
      simp only [Bool.false_eq_true, if_false]
      refine ⟨?_, rfl⟩
      simp only
      rw [← List.append_assoc, h1]
    · exact ⟨h1, h2⟩
  | completeFail i =>
    rw [streamStep]
    exact ⟨h1, h2⟩
  | audioComplete =>
    rw [streamStep]
    cases hp : s.playingIdx with
    | none => exact ⟨h1, h2⟩
    | some j =>
      simp only
      rw [h2]
      simp only [Bool.false_eq_true, if_false]
      cases hq : s.audioQueue with
      | cons q rest =>
        simp only
        split
        · apply startPrefetching_fifo
          refine ⟨?_, rfl⟩
          simp only
          rw [hq] at h1
          rw [← h1, List.append_assoc]
          simp
        · refine ⟨?_, rfl⟩
          simp only
          rw [hq] at h1
          rw [← h1, List.append_assoc]
          simp
      | nil =>
        simp only
        split
        · refine ⟨?_, rfl⟩
          simp only
          rw [hq] at h1
          simpa using h1
        · refine ⟨?_, rfl⟩
          simp only
          rw [hq] at h1
          simpa using h1
  | stop => exact absurd rfl he

/-- C3 (amended): a completed prefetch is appended to the audio queue in
completion order and playback dequeues strictly from the front, so during a
stop-free live-streaming session the queue-played sections followed by the
still-queued sections equal the prefetch-completion (enqueue) order.
Sections therefore play in the order their prefetch requests complete —
which is increasing ordinal order only when completions arrive in ordinal
order, not for every possible completion order. -/
theorem claim_C3_amended_fifo (total : Nat) (evs : List StreamEvent)
    (h : StreamEvent.stop ∉ evs) :
    (runStream total evs).playedQ ++ (runStream total evs).audioQueue =
      (runStream total evs).enqueued := by
  have hgen : ∀ (l : List StreamEvent) (s : StreamState),
      StreamEvent.stop ∉ l → fifoInvariant s →
      fifoInvariant (l.foldl streamStep s) := by
    intro l
    induction l with
    | nil => intro s _ hs; exact hs
    | cons e rest ih =>
      intro s hl hs
      have hne : e ≠ StreamEvent.stop := by
        intro hc; exact hl (by rw [hc]; exact List.mem_cons_self _ _)
      have hrest : StreamEvent.stop ∉ rest := by
        intro hc; exact hl (List.mem_cons.mpr (Or.inr hc))
      exact ih _ hrest (streamStep_fifo s e hne hs)
  have hinit : fifoInvariant (speakInit total) := by
    unfold speakInit
    split
    · exact startPrefetching_fifo _ (by constructor <;> rfl)
    · constructor <;> rfl
  exact (hgen evs (speakInit total) h hinit).1

/-- Witness for the amended C3: the counterexample trace contains no stop
event, and on it the queue-played prefix `[2]` together with the remaining
queue `[1]` equals the completion order `[2, 1]`. -/
theorem claim_C3_amended_fifo_witness :
    StreamEvent.stop ∉ [StreamEvent.completeOk 2, StreamEvent.completeOk 1,
        StreamEvent.audioComplete] ∧
      (runStream 3 [StreamEvent.completeOk 2, StreamEvent.completeOk 1,
          StreamEvent.audioComplete]).playedQ ++
        (runStream 3 [StreamEvent.completeOk 2, StreamEvent.completeOk 1,
          StreamEvent.audioComplete]).audioQueue =
      (runStream 3 [StreamEvent.completeOk 2, StreamEvent.completeOk 1,
          StreamEvent.audioComplete]).enqueued :=
  ⟨by decide, claim_C3_amended_fifo 3 [StreamEvent.completeOk 2,
    StreamEvent.completeOk 1, StreamEvent.audioComplete] (by decide)⟩

/-! ## Error codes (`ErrorCodes`, lines 13-19) -/

def CONFIG_INCOMPLETE : String := "config-incomplete"

def AUTH_FAILED : String := "auth-failed"

def CONNECTION_FAILED : String := "connection-failed"

def RATE_LIMITED : String := "rate-limited"

def API_ERROR : String := "api-error"

/-! ## Session-cache replay (`speak` cache hit and `playCachedSection`)

Audio blobs are abstracted as natural-number identifiers; a cache slot is
`Option Nat` because `sessionCache.sections` is a sparse array
(`sections[sectionIndex] = blob`). -/

structure SessionCache where
  text : String
  voice : String
  model : String
  sections : List (Option Nat)
deriving DecidableEq

/-- `playCachedSection` (lines 775-819) iterated through the cache branch of
`onAudioComplete` (lines 589-596): starting at index `next`, play the blob
at each successive index until the cache is exhausted or a slot is missing
(each missing case sets the state to idle and stops).  Returns the blobs
handed to the audio player, in order.  Any `fuel > sections.length - next`
suffices. -/
def cachePlayLoop (secs : List (Option Nat)) : Nat → Nat → List Nat
  | 0, _ => []
  | fuel + 1, next =>
    if secs.length = 0 then []
    else if secs.length ≤ next then []
    else
      match secs.getD next none with
      | some b => b :: cachePlayLoop secs fuel (next + 1)
      | none => []

/-- Outcome of the dispatch at the top of `speak` (lines 403-426). -/
inductive SpeakOutcome where
  | fromCache (playedBlobs : List Nat)
  | streamed
deriving DecidableEq

/-- `synthesizeToBlob` invocations implied by the chosen `speak` path: the
cache branch (lines 407-418) calls only `playCachedSection`, which never
synthesizes; the streaming branch always synthesizes at least the first
section (line 448 via line 469). -/
def speakSynthRequests : SpeakOutcome → Nat
  | SpeakOutcome.fromCache _ => 0
  | SpeakOutcome.streamed => 1

/-- The dispatch of `speak(text)` (lines 403-426): read the configured voice
and model; replay from the session cache iff a previous cache exists and its
(text, voice, model) tuple matches exactly; otherwise clear the old cache
and stream afresh. -/
def speakDispatch (prev : Option SessionCache) (t v m : String) : SpeakOutcome :=
  match prev with
  | some c =>
    if c.text = t ∧ c.voice = v ∧ c.model = m then
      SpeakOutcome.fromCache (cachePlayLoop c.sections (c.sections.length + 1) 0)
    else SpeakOutcome.streamed
  | none => SpeakOutcome.streamed

theorem cachePlayLoop_complete (secs : List (Option Nat))
    (hall : ∀ o ∈ secs, o.isSome = true) :
    ∀ (fuel next : Nat), secs.length - next < fuel →
      cachePlayLoop secs fuel next = (secs.drop next).reduceOption := by
  intro fuel
  induction fuel with
  | zero => intro next h; omega
  | succ k ih =>
    intro next h
    rw [cachePlayLoop]
    by_cases h0 : secs.length = 0
    · rw [if_pos h0, List.length_eq_zero.mp h0]
      simp
    · rw [if_neg h0]
      by_cases hle : secs.length ≤ next
      · rw [if_pos hle, List.drop_eq_nil_of_le hle]
        simp
      · rw [if_neg hle]
        have hlt : next < secs.length := by omega
        have hget : secs[next]? = some (secs[next]) := List.getElem?_eq_getElem hlt
        have hsome : (secs[next]).isSome = true := hall _ (List.getElem?_mem hget)
        obtain ⟨b, hb⟩ := Option.isSome_iff_exists.mp hsome
        simp only [List.getD_eq_getElem?_getD, hget, hb, Option.getD_some]
        rw [ih (next + 1) (by omega)]
        rw [List.drop_eq_getElem_cons hlt, hb, List.reduceOption_cons_of_some]

/-- C4: when `speak(text)` is called again with the same text while the
configured voice and model are unchanged and the previous call cached every
section, the second call takes the cache-replay path: it plays every cached
section in order (as many blobs as there are sections) and issues no new
backend synthesis request (`synthesizeToBlob` is never invoked). -/
theorem claim_C4_cache_replay (c : SessionCache) (t v m : String)
    (h1 : c.text = t) (h2 : c.voice = v) (h3 : c.model = m)
    (hall : ∀ o ∈ c.sections, o.isSome = true) :
    speakDispatch (some c) t v m =
        SpeakOutcome.fromCache c.sections.reduceOption ∧
      c.sections.reduceOption.length = c.sections.length ∧
      speakSynthRequests (speakDispatch (some c) t v m) = 0 := by
  have hd : speakDispatch (some c) t v m =
      SpeakOutcome.fromCache (cachePlayLoop c.sections (c.sections.length + 1) 0) := by
    unfold speakDispatch
    dsimp only
    rw [if_pos ⟨h1, h2, h3⟩]
  have hloop := cachePlayLoop_complete c.sections hall (c.sections.length + 1) 0
    (by omega)
  rw [List.drop_zero] at hloop
  refine ⟨by rw [hd, hloop], List.reduceOption_length_eq_iff.mpr hall, ?_⟩
  rw [hd]
  rfl

/-- Witness for C4: a two-section fully-populated cache and an identical
(text, voice, model) request replay both blobs with zero synthesis calls. -/
theorem claim_C4_cache_replay_witness :
    (speakDispatch (some ⟨"ab", "alloy", "tts-1", [some 10, some 20]⟩)
        ("ab") ("alloy") ("tts-1") =
      SpeakOutcome.fromCache ([some 10, some 20] : List (Option Nat)).reduceOption) ∧
      (([some 10, some 20] : List (Option Nat)).reduceOption.length =
        ([some 10, some 20] : List (Option Nat)).length) ∧
      speakSynthRequests (speakDispatch
        (some ⟨"ab", "alloy", "tts-1", [some 10, some 20]⟩)
        ("ab") ("alloy") ("tts-1")) = 0 :=
  claim_C4_cache_replay ⟨"ab", "alloy", "tts-1", [some 10, some 20]⟩
    ("ab") ("alloy") ("tts-1") rfl rfl rfl (by decide)

/-! ## Error propagation (`synthesizeToBlob`, `speakSection`, module `speak`) -/

structure JsError where
  name : String
  message : String
deriving DecidableEq

def errorName : String := "Error"

def abortErrorName : String := "AbortError"

def otherKey : String := "other"

def errorSeverity : String := "error"

def idleState : String := "idle"

/-- The status check of `synthesizeToBlob` (lines 732-743): `response.ok`
means status 200-299; otherwise throw `auth-failed` on 401, `rate-limited`
on 429, and the generic `api-error` otherwise — each as `new Error(...)`,
whose `name` is `Error`.  `none` means the response was accepted. -/
def statusError (status : Nat) : Option JsError :=
  if 200 ≤ status ∧ status ≤ 299 then none
  else if status = 401 then some { name := errorName, message := AUTH_FAILED }
  else if status = 429 then some { name := errorName, message := RATE_LIMITED }
  else some { name := errorName, message := API_ERROR }

/-- The catch of `synthesizeToBlob` (lines 746-761): an `AbortError` and
the four taxonomy errors are rethrown unchanged; any other failure becomes
`connection-failed`. -/
def synthesizeCatch (e : JsError) : JsError :=
  if e.name = abortErrorName then e
  else if e.message = AUTH_FAILED ∨ e.message = RATE_LIMITED ∨
      e.message = API_ERROR ∨ e.message = CONFIG_INCOMPLETE then e
  else { name := errorName, message := CONNECTION_FAILED }

/-- The catch of `speakSection` (lines 486-494): an `AbortError` is
swallowed (`none`); everything else is rethrown to the caller. -/
def speakSectionCatch (e : JsError) : Option JsError :=
  if e.name = abortErrorName then none else some e

/-- The error-key mapping of the module-level `speak` wrapper
(lines 900-911). -/
def errorKeyOf (msg : String) : String :=
  if msg = CONFIG_INCOMPLETE then CONFIG_INCOMPLETE
  else if msg = AUTH_FAILED then AUTH_FAILED
  else if msg = CONNECTION_FAILED then CONNECTION_FAILED
  else if msg = RATE_LIMITED then RATE_LIMITED
  else if msg = API_ERROR then API_ERROR
  else otherKey

/-- One `notifyGeneric` emission: the error cause shown to the user and the
severity tag. -/
structure Notice where
  cause : String
  severity : String
deriving DecidableEq

/-- An error `e` thrown while synthesizing the first section of a `speak`
call: it passes the catch of `synthesizeToBlob`, then `speakSection`'s
catch; a survivor reaches the module-level catch (lines 893-920), which
emits exactly one `notifyGeneric` notification with the mapped cause and
the `error` severity tag and forces the state to idle.  A swallowed error
produces no notification and forces no state. -/
def sectionFailureFlow (e : JsError) : List Notice × Option String :=
  match speakSectionCatch (synthesizeCatch e) with
  | none => ([], none)
  | some e2 =>
    ([{ cause := errorKeyOf e2.message, severity := errorSeverity }],
      some idleState)

/-- A `speak` call whose first-section synthesis request receives HTTP
status `status`. -/
def firstSectionStatusFlow (status : Nat) : List Notice × Option String :=
  match statusError status with
  | none => ([], none)
  | some e => sectionFailureFlow e

/-- C5: when the REST backend answers the first-section synthesis request
of a `speak(text)` call with a non-2xx status, exactly one user-visible
notification is emitted, tagged with severity `error`, the session state is
forced to idle, and the cause is `auth-failed` for 401, `rate-limited` for
429 and `api-error` for any other non-2xx status. -/
theorem claim_C5_status_error_mapping (status : Nat)
    (h : ¬ (200 ≤ status ∧ status ≤ 299)) :
    firstSectionStatusFlow status =
      ([{ cause := if status = 401 then AUTH_FAILED
            else if status = 429 then RATE_LIMITED else API_ERROR,
          severity := errorSeverity }], some idleState) := by
  by_cases h1 : status = 401
  · subst h1
    decide
  · by_cases h2 : status = 429
    · subst h2
      decide
    · unfold firstSectionStatusFlow statusError
      rw [if_neg h, if_neg h1, if_neg h2]
      dsimp only
      have hflow : sectionFailureFlow { name := errorName, message := API_ERROR } =
          ([{ cause := API_ERROR, severity := errorSeverity }], some idleState) := by
        decide
      rw [hflow, if_neg h1, if_neg h2]

/-- Witness for C5: a simulated 401 response yields exactly one
notification, tagged `auth-failed` with severity `error`, and idle state. -/
theorem claim_C5_status_error_mapping_witness :
    (¬ (200 ≤ 401 ∧ 401 ≤ 299)) ∧
      firstSectionStatusFlow 401 =
        ([{ cause := if 401 = 401 then AUTH_FAILED
              else if 401 = 429 then RATE_LIMITED else API_ERROR,
            severity := errorSeverity }], some idleState) :=
  ⟨by decide, claim_C5_status_error_mapping 401 (by decide)⟩

/-- C9: an exception named `AbortError`, arising from cancellation of an
in-flight synthesis request, is rethrown unchanged by `synthesizeToBlob`'s
catch (never mapped to a taxonomy error value), swallowed by
`speakSection`'s catch, and therefore never reaches the module-level error
handler: no notification is emitted and no error state is forced. -/
theorem claim_C9_abort_swallowed (e : JsError) (h : e.name = abortErrorName) :
    synthesizeCatch e = e ∧ speakSectionCatch (synthesizeCatch e) = none ∧
      sectionFailureFlow e = ([], none) := by
  have h1 : synthesizeCatch e = e := by
    unfold synthesizeCatch
    rw [if_pos h]
  have h2 : speakSectionCatch e = none := by
    unfold speakSectionCatch
    rw [if_pos h]
  refine ⟨h1, by rw [h1]; exact h2, ?_⟩
  unfold sectionFailureFlow
  rw [h1, h2]

/-- Witness for C9: a concrete `AbortError` (even one whose message equals
a taxonomy value) is swallowed without notification. -/
theorem claim_C9_abort_swallowed_witness :
    (({ name := abortErrorName, message := API_ERROR } : JsError).name =
        abortErrorName) ∧
      (synthesizeCatch { name := abortErrorName, message := API_ERROR } =
          { name := abortErrorName, message := API_ERROR } ∧
        speakSectionCatch
          (synthesizeCatch { name := abortErrorName, message := API_ERROR }) =
            none ∧
        sectionFailureFlow { name := abortErrorName, message := API_ERROR } =
          ([], none)) :=
  ⟨rfl, claim_C9_abort_swallowed { name := abortErrorName, message := API_ERROR } rfl⟩

/-! ## `stop` and the cancellation token (C6)

`OpenAISynthesizer.abortController` (line 367) is modelled as the optional
identifier of a controller; each `synthesizeToBlob` call creates its own
local controller for its fetch (line 714).  Nothing in the source ever
assigns `this.abortController`, so the field remains `null` for the life of
the synthesizer (its only writes, lines 504 and 577, set it to `null`). -/

structure ReqController where
  id : Nat
  aborted : Bool
deriving DecidableEq

structure SynthFields where
  isStopped : Bool
  cachePlaybackActive : Bool
  abortController : Option Nat
  audioQueue : List Nat
  prefetchInProgress : List Nat
  splitter : SplitterState
  requests : List ReqController
  ttsState : String
deriving DecidableEq

def initialSynthFields : SynthFields :=
  { isStopped := false, cachePlaybackActive := false, abortController := none,
    audioQueue := [], prefetchInProgress := [],
    splitter := initSplitter [], requests := [], ttsState := idleState }

/-- The start of `synthesizeToBlob` (line 714): a fresh local
`AbortController` guards the fetch; it is NOT stored in
`this.abortController` (no such assignment exists in the source). -/
def beginSynthesizeToBlob (s : SynthFields) : SynthFields :=
  { s with requests :=
      s.requests ++ [{ id := s.requests.length, aborted := false }] }

/-- `OpenAISynthesizer.stop` (lines 497-513): set the stopped flag, clear
cache playback, abort and null the field-held controller if there is one,
clear the prefetch queue and in-progress set (`clearQueue`,
lines 767-770), reset the sectioner, and force the idle state. -/
def stopSynthesizer (s : SynthFields) : SynthFields :=
  let s1 := { s with isStopped := true, cachePlaybackActive := false }
  let s2 :=
    match s1.abortController with
    | some cid =>
      { s1 with
          requests := s1.requests.map
            (fun (r : ReqController) =>
              if r.id = cid then { r with aborted := true } else r),
          abortController := none }
    | none => s1
  { s2 with audioQueue := [], prefetchInProgress := [],
            splitter := initSplitter [], ttsState := idleState }

/-- C6, evaluated at the failing input (`stop()` while one
`synthesizeToBlob` fetch is in flight): the stopped flag is set, the
queues are cleared, the sectioner is reset and the state is idle — but the
in-flight request's cancellation token is NOT aborted, because
`synthesizeToBlob` keeps its `AbortController` local and the source never
assigns `this.abortController`, so the abort branch of `stop`
(lines 502-505) never has a controller to abort.  The claim that every
in-flight request is aborted via its cancellation token fails on the
code. -/
theorem claim_C6_stop_leaves_request_unaborted :
    (stopSynthesizer (beginSynthesizeToBlob initialSynthFields)).isStopped = true ∧
    (stopSynthesizer (beginSynthesizeToBlob initialSynthFields)).audioQueue = [] ∧
    (stopSynthesizer (beginSynthesizeToBlob initialSynthFields)).prefetchInProgress
        = [] ∧
    (stopSynthesizer (beginSynthesizeToBlob initialSynthFields)).splitter =
        initSplitter [] ∧
    (stopSynthesizer (beginSynthesizeToBlob initialSynthFields)).ttsState =
        idleState ∧
    (stopSynthesizer (beginSynthesizeToBlob initialSynthFields)).requests =
        [{ id := 0, aborted := false }] := by
  decide

/-! ## `skipBackward` (C8) -/

inductive SkipOutcome where
  | inSegment (newTime : ℚ)
  | replayCached (idx : Nat)
deriving DecidableEq

/-- `AudioPlayer.skipBackward(10)` (lines 287-300): seek 10 seconds back,
clamping to the start of the current segment when the position is under 10
seconds; never an error. -/
def playerSkipBackward (t : ℚ) : ℚ :=
  if t - 10 < 0 then 0 else t - 10

/-- `OpenAISynthesizer.skipBackward` (lines 523-554): if the in-segment
target time is non-negative, seek within the segment; otherwise, when the
session cache exists, the current section index is positive and the
previous slot holds a blob, stop current playback and replay the cached
previous section; otherwise clamp within the current segment.  `curIdx` is
`currentSectionIndex` (initialized to -1, hence an integer); blobs are the
`Option Nat` slots of the session cache. -/
def synthSkipBackward (t : ℚ) (cache : Option (List (Option Nat)))
    (curIdx : Int) : SkipOutcome :=
  if 0 ≤ t - 10 then SkipOutcome.inSegment (playerSkipBackward t)
  else
    match cache with
    | some secs =>
      if 0 < curIdx then
        match secs.getD (curIdx - 1).toNat none with
        | some _ => SkipOutcome.replayCached (curIdx - 1).toNat
        | none => SkipOutcome.inSegment (playerSkipBackward t)
      else SkipOutcome.inSegment (playerSkipBackward t)
    | none => SkipOutcome.inSegment (playerSkipBackward t)

/-- C8: with the playback position under 10 seconds, `skipBackward` clamps
the position to 0 within the current segment — never an error — whenever no
earlier cached section exists (the cache is absent, or the current section
index is 0 or the initial -1, or the previous slot holds no blob); and when
an earlier cached section does exist, playback switches to cache replay at
the previous index. -/
theorem claim_C8_skip_backward (t : ℚ) (cache : Option (List (Option Nat)))
    (curIdx : Int) (h : t < 10) :
    ((cache = none ∨ curIdx ≤ 0) →
        synthSkipBackward t cache curIdx = SkipOutcome.inSegment 0) ∧
      ((∀ secs, cache = some secs → secs.getD (curIdx - 1).toNat none = none) →
        synthSkipBackward t cache curIdx = SkipOutcome.inSegment 0) ∧
      (∀ secs b, cache = some secs → 0 < curIdx →
        secs.getD (curIdx - 1).toNat none = some b →
        synthSkipBackward t cache curIdx =
          SkipOutcome.replayCached (curIdx - 1).toNat) := by
  have hneg : ¬ (0 ≤ t - 10) := by
    intro hc
    linarith
  have hclamp : playerSkipBackward t = 0 := by
    unfold playerSkipBackward
    rw [if_pos (by linarith)]
  refine ⟨?_, ?_, ?_⟩
  · intro hc
    unfold synthSkipBackward
    rw [if_neg hneg]
    rcases hc with hc | hc
    · rw [hc]
      dsimp only
      rw [hclamp]
    · cases cache with
      | none =>
        dsimp only
        rw [hclamp]
      | some secs =>
        dsimp only
        rw [if_neg (by omega), hclamp]
  · intro hmiss
    unfold synthSkipBackward
    rw [if_neg hneg]
    cases cache with
    | none =>
      dsimp only
      rw [hclamp]
    | some secs =>
      dsimp only
      by_cases hpos : 0 < curIdx
      · rw [if_pos hpos, hmiss secs rfl]
        dsimp only
        rw [hclamp]
      · rw [if_neg hpos, hclamp]
  · intro secs b hc hpos hblob
    subst hc
    unfold synthSkipBackward
    rw [if_neg hneg]
    dsimp only
    rw [if_pos hpos, hblob]

/-- Witness for C8: three seconds into the very first segment with no
session cache, `skipBackward` clamps to position 0. -/
theorem claim_C8_skip_backward_witness :
    ((3 : ℚ) < 10) ∧ synthSkipBackward 3 none 0 = SkipOutcome.inSegment 0 :=
  ⟨by norm_num, (claim_C8_skip_backward 3 none 0 (by norm_num)).1 (Or.inl rfl)⟩
